import Mathlib

/-!
Verification of the tool-invocation mediation pipeline of `codex-rs`:
the PreToolUse hook engine (`core/src/hooks/`) and the dispatch
controller (`core/src/tools/registry.rs`), shallowly embedded in Lean.

Rust strings are modelled as Lean `String`s (sequences of chars); where
byte-level behaviour matters (UTF-8 slicing) the byte structure is made
explicit via `Char.utf8Size`.  Subprocess behaviour and `serde_json`
parsing are abstracted as oracles supplied to the embedded functions;
everything downstream of those oracles is translated from the source.
-/

/- ================= Hook wire protocol (hooks/types.rs) ================= -/

/-- Hook decision, from `HookDecision` in `hooks/types.rs`.
`Allow` is the `Default`. -/
inductive HookDecision where
  | Allow
  | Deny
  | Ask
deriving DecidableEq, Repr

instance : Inhabited HookDecision := ⟨HookDecision.Allow⟩

/-- Nested output structure, from `HookSpecificOutput` in `hooks/types.rs`. -/
structure HookSpecificOutput where
  permission_decision : Option HookDecision
  permission_decision_reason : Option String
deriving DecidableEq, Repr

/-- Parsed hook response, from `HookOutput` in `hooks/types.rs`: a legacy
flat pair (`decision`, `reason`) and a preferred nested pair inside
`hook_specific_output`. -/
structure HookOutput where
  hook_specific_output : Option HookSpecificOutput
  decision : Option HookDecision
  reason : Option String
deriving DecidableEq, Repr

/-- `Default` for `HookOutput`: all fields absent. -/
instance : Inhabited HookOutput := ⟨⟨none, none, none⟩⟩

/-- `HookOutput::decision` in `hooks/types.rs`: return
`hook_specific_output.permission_decision` when the nested struct is
present and carries a decision, else the legacy `decision` field,
defaulting to `Allow`. -/
def HookOutput.effective_decision (o : HookOutput) : HookDecision :=
  match o.hook_specific_output with
  | some hso =>
    match hso.permission_decision with
    | some d => d
    | none => o.decision.getD HookDecision.Allow
  | none => o.decision.getD HookDecision.Allow

/-- `HookOutput::reason` in `hooks/types.rs`: return
`hook_specific_output.permission_decision_reason` when the nested struct
is present and that field is `Some`, else the legacy `reason` field. -/
def HookOutput.effective_reason (o : HookOutput) : Option String :=
  match o.hook_specific_output with
  | some hso =>
    match hso.permission_decision_reason with
    | some r => some r
    | none => o.reason
  | none => o.reason

/- ================= Pattern matcher (hooks/matcher.rs) ================= -/

/-- Modelled from the spec: the `wildmatch` crate's case-insensitive glob
match contract (library internals are out of scope; only the contract is
used): `*` matches any run of characters (including the empty run), `?`
matches exactly one character, every other pattern character matches
itself.  `starMatch rest s` is the `*`-step: it succeeds iff some suffix
of `s` is matched by `rest`. -/
def starMatch (rest : List Char → Bool) : List Char → Bool
  | [] => rest []
  | c :: cs => rest (c :: cs) || starMatch rest cs

/-- Modelled from the spec: the recursive glob matcher over char lists
(see `starMatch`).  Case folding is applied by the caller. -/
def globMatch : List Char → List Char → Bool
  | [], s => s.isEmpty
  | c :: p, s =>
    if c = '*' then starMatch (globMatch p) s
    else
      match s with
      | [] => false
      | d :: t => (c = d || c = '?') && globMatch p t

/-- `matches_tool` in `hooks/matcher.rs`, with Rust `&str` modelled as
`List Char`: `"*"` matches everything; a pattern containing `*` or `?`
is matched case-insensitively as a glob (the `wildmatch` contract, both
sides ASCII-lowercased); otherwise ASCII-case-insensitive equality
(`eq_ignore_ascii_case`). -/
def matches_tool (pattern tool_name : List Char) : Bool :=
  if pattern = ['*'] then true
  else if pattern.contains '*' || pattern.contains '?' then
    globMatch (pattern.map Char.toLower) (tool_name.map Char.toLower)
  else
    pattern.map Char.toLower = tool_name.map Char.toLower

/-- Declarative glob-matching relation: the specification that `*`
matches any run of characters (including the empty run), `?` matches
exactly one character, and any other pattern character matches exactly
itself. -/
inductive GlobM : List Char → List Char → Prop where
  | nil : GlobM [] []
  | lit {c : Char} {p s : List Char} (hs : c ≠ '*') (hq : c ≠ '?') :
      GlobM p s → GlobM (c :: p) (c :: s)
  | one {c : Char} {p s : List Char} : GlobM p s → GlobM ('?' :: p) (c :: s)
  | star {p : List Char} (u : List Char) {v : List Char} :
      GlobM p v → GlobM ('*' :: p) (u ++ v)

theorem starMatch_iff (rest : List Char → Bool) (s : List Char) :
    starMatch rest s = true ↔ ∃ u v, s = u ++ v ∧ rest v = true := by
  induction s with
  | nil =>
    simp only [starMatch]
    constructor
    · intro h; exact ⟨[], [], rfl, h⟩
    · rintro ⟨u, v, huv, hv⟩
      rcases List.append_eq_nil.mp huv.symm with ⟨hu, hv0⟩
      subst hv0; exact hv
  | cons c cs ih =>
    simp only [starMatch, Bool.or_eq_true, ih]
    constructor
    · rintro (h | ⟨u, v, huv, hv⟩)
      · exact ⟨[], c :: cs, rfl, h⟩
      · exact ⟨c :: u, v, by simp [huv], hv⟩
    · rintro ⟨u, v, huv, hv⟩
      cases u with
      | nil => left; simpa using huv ▸ hv
      | cons a u' =>
        right
        refine ⟨u', v, ?_, hv⟩
        simpa using congrArg List.tail huv

theorem globMatch_sound (p : List Char) :
    ∀ s, globMatch p s = true → GlobM p s := by
  induction p with
  | nil =>
    intro s h
    simp only [globMatch, List.isEmpty_iff] at h
    subst h; exact GlobM.nil
  | cons c p ih =>
    intro s h
    simp only [globMatch] at h
    by_cases hc : c = '*'
    · subst hc
      simp only [if_pos rfl] at h
      rcases (starMatch_iff (globMatch p) s).mp h with ⟨u, v, huv, hv⟩
      subst huv
      exact GlobM.star u (ih v hv)
    · rw [if_neg hc] at h
      cases s with
      | nil => exact absurd h (by simp)
      | cons d t =>
        simp only [Bool.and_eq_true, Bool.or_eq_true, decide_eq_true_eq] at h
        obtain ⟨hcd, ht⟩ := h
        rcases hcd with hcd | hq
        · subst hcd
          by_cases hq : c = '?'
          · subst hq; exact GlobM.one (ih t ht)
          · exact GlobM.lit hc hq (ih t ht)
        · subst hq; exact GlobM.one (ih t ht)

theorem globMatch_complete {p s : List Char} (h : GlobM p s) :
    globMatch p s = true := by
  induction h with
  | nil => rfl
  | lit hs hq _ ih =>
    simp only [globMatch, if_neg hs]
    simp [ih]
  | one _ ih =>
    simp only [globMatch]
    rw [if_neg (by decide : ('?' : Char) ≠ '*')]
    simp [ih]
  | star u _ ih =>
    simp only [globMatch, if_pos rfl]
    exact (starMatch_iff _ _).mpr ⟨u, _, rfl, ih⟩

theorem globMatch_iff (p s : List Char) :
    globMatch p s = true ↔ GlobM p s :=
  ⟨globMatch_sound p s, globMatch_complete⟩

/- ================= Hook executor (hooks/executor.rs) ================= -/

/-- `HookFailurePolicy` from `config/types.rs` (declared there, used by
the executor): governs behaviour when the hook itself errors. -/
inductive HookFailurePolicy where
  | Deny
  | Allow
deriving DecidableEq, Repr

/-- `PreToolUseHookConfig` from `config/types.rs`: one configured hook
rule.  The matcher pattern is a char list (see `matches_tool`). -/
structure PreToolUseHookConfig where
  matcher : List Char
  command : List String
  timeout_sec : Nat
  on_failure : HookFailurePolicy
deriving Repr

/-- Outcome of running one hook subprocess, abstracting the OS boundary
in `execute_single_hook`: spawn failure, stdin-write failure, timeout,
wait failure, or an exit with status code (`None` when signal-killed)
and captured stdout/stderr. -/
inductive ProcessResult where
  | spawnErr (msg : String)
  | stdinErr (msg : String)
  | timeout
  | waitErr (msg : String)
  | exited (code : Option Int) (stdout stderr : String)
deriving Repr

/-- Rendering of Rust's `ExitStatus` `Display`, used only inside error
messages whose exact text no claim depends on. -/
def statusDescription (code : Option Int) : String :=
  match code with
  | some n => "exit status: " ++ toString n
  | none => "signal"

/-- Rust `str::trim`: strip leading and trailing whitespace. -/
def rustTrim (s : String) : String :=
  String.mk
    (((s.data.dropWhile Char.isWhitespace).reverse.dropWhile
      Char.isWhitespace).reverse)

/-- Total UTF-8 byte length of a char sequence. -/
def utf8Len (s : List Char) : Nat := (s.map Char.utf8Size).sum

/-- Rust byte slicing `&s[..n]` on a `str`, made explicit: returns the
chars covering the first `n` bytes when `n` lies on a character
boundary, and `none` (a Rust panic) otherwise. -/
def byteTake (s : List Char) (n : Nat) : Option (List Char) :=
  if n = 0 then some []
  else
    match s with
    | [] => none
    | c :: cs =>
      if c.utf8Size ≤ n then (byteTake cs (n - c.utf8Size)).map (c :: ·)
      else none

/-- The preview slice in `execute_single_hook`'s parse-error branch:
`&stdout[..stdout.len().min(200)]` (`none` = panic on a non-boundary). -/
def parseErrorPreview (stdout : List Char) : Option (List Char) :=
  byteTake stdout (Nat.min (utf8Len stdout) 200)

/-- `execute_single_hook` in `hooks/executor.rs`, with the subprocess
outcome supplied as `pr` and `serde_json` parsing of stdout supplied as
the oracle `parseHookOutput` (`Except` carries the serde error text).
Result `none` models a panic; `some (Except.error e)` a hook-execution
error; `some (Except.ok o)` a parsed `HookOutput`. -/
def execute_single_hook (parseHookOutput : String → Except String HookOutput)
    (timeout_sec : Nat) (pr : ProcessResult) :
    Option (Except String HookOutput) :=
  match pr with
  | ProcessResult.spawnErr e => some (Except.error ("Spawn hook: " ++ e))
  | ProcessResult.stdinErr e => some (Except.error ("Write to hook stdin: " ++ e))
  | ProcessResult.waitErr e => some (Except.error ("Wait for hook: " ++ e))
  | ProcessResult.timeout =>
    some (Except.error ("Hook timed out after " ++ toString timeout_sec ++ "s"))
  | ProcessResult.exited code stdout stderr =>
    if code = some 2 then
      some (Except.ok
        { hook_specific_output := none
          decision := some HookDecision.Deny
          reason := some (if rustTrim stderr = "" then
              "Hook blocked command (exit code 2)"
            else rustTrim stderr) })
    else if code ≠ some 0 then
      some (Except.error (if rustTrim stderr = "" then
          "Hook exited with status: " ++ statusDescription code
        else "Hook failed: " ++ rustTrim stderr))
    else if rustTrim stdout = "" then
      some (Except.ok default)
    else
      match parseHookOutput stdout with
      | Except.ok o => some (Except.ok o)
      | Except.error e =>
        (parseErrorPreview stdout.data).map fun pv =>
          Except.error ("Parse hook output: " ++ e ++ " (got: " ++
            String.mk pv ++ ")")

/-- Loop body of `run_pre_tool_use_hooks` in `hooks/executor.rs`,
recursing over the configured rules; `exec i` is the subprocess outcome
of the rule at overall index `i`.  The `tool_input` only flows into the
subprocess's stdin (absorbed by the oracle).  `none` models a panic. -/
def run_hooks_go (exec : Nat → ProcessResult)
    (parseHookOutput : String → Except String HookOutput)
    (tool_name : List Char) (i : Nat) :
    List PreToolUseHookConfig → Option (Except String Unit)
  | [] => some (Except.ok ())
  | hook :: rest =>
    if matches_tool hook.matcher tool_name = false then
      run_hooks_go exec parseHookOutput tool_name (i + 1) rest
    else if hook.command.isEmpty then
      match hook.on_failure with
      | HookFailurePolicy.Deny =>
        some (Except.error "Hook misconfigured: empty command")
      | HookFailurePolicy.Allow =>
        run_hooks_go exec parseHookOutput tool_name (i + 1) rest
    else
      match execute_single_hook parseHookOutput hook.timeout_sec (exec i) with
      | none => none
      | some (Except.ok output) =>
        match output.effective_decision with
        | HookDecision.Deny =>
          some (Except.error
            (output.effective_reason.getD "Blocked by PreToolUse hook"))
        | HookDecision.Ask =>
          some (Except.error
            (output.effective_reason.getD "Blocked by PreToolUse hook"))
        | HookDecision.Allow =>
          run_hooks_go exec parseHookOutput tool_name (i + 1) rest
      | some (Except.error e) =>
        match hook.on_failure with
        | HookFailurePolicy.Deny =>
          some (Except.error ("Hook failed (fail-closed): " ++ e))
        | HookFailurePolicy.Allow =>
          run_hooks_go exec parseHookOutput tool_name (i + 1) rest

/-- `run_pre_tool_use_hooks` in `hooks/executor.rs`: run all matching
PreToolUse hooks in configured order; `Except.error reason` means the
call is blocked. -/
def run_pre_tool_use_hooks (hooks : List PreToolUseHookConfig)
    (exec : Nat → ProcessResult)
    (parseHookOutput : String → Except String HookOutput)
    (tool_name : List Char) : Option (Except String Unit) :=
  run_hooks_go exec parseHookOutput tool_name 0 hooks

/- ================= JSON values (serde_json::Value) ================= -/

/-- `serde_json::Value`, with numbers collapsed to `Int` (no claim
depends on number precision) and objects as association lists in key
order (no claim depends on `serde_json`'s map ordering). -/
inductive Json where
  | null
  | bool (b : Bool)
  | num (n : Int)
  | str (s : String)
  | arr (xs : List Json)
  | obj (fields : List (String × Json))
deriving Repr

/-- `Value::as_str`: `some` exactly on JSON strings. -/
def Json.asStr : Json → Option String
  | Json.str s => some s
  | _ => none

/-- `Map::get` on a JSON object's fields. -/
def lookupField : List (String × Json) → String → Option Json
  | [], _ => none
  | (k, v) :: rest, key => if k = key then some v else lookupField rest key

/-- `Map::contains_key`. -/
def hasField (fields : List (String × Json)) (key : String) : Bool :=
  (lookupField fields key).isSome

/-- In-place update through `Map::get_mut`: replace the value at `key`
(first occurrence; keys of a `serde_json` map are unique). -/
def setField : List (String × Json) → String → Json → List (String × Json)
  | [], _, _ => []
  | (k, v) :: rest, key, nv =>
    if k = key then (k, nv) :: rest else (k, v) :: setField rest key nv

/-- The join in `normalize_command_to_string`:
`command.iter().filter_map(as_str).collect::<Vec<_>>().join(" ")` —
only string elements contribute. -/
def joinCommand (xs : List Json) : String :=
  String.intercalate " " (xs.filterMap Json.asStr)

/-- `normalize_command_to_string` in `tools/registry.rs`: on an object,
copy a string-valued `cmd` into `command` when no `command` key exists,
then replace an array-valued `command` by the space-joined string of its
string elements.  Non-objects are left unchanged. -/
def normalize_command_to_string (v : Json) : Json :=
  match v with
  | Json.obj fields =>
    let cmd_alias := (lookupField fields "cmd").bind Json.asStr
    let fields1 :=
      match cmd_alias with
      | some s =>
        if hasField fields "command" = false then
          fields ++ [("command", Json.str s)]
        else fields
      | none => fields
    let fields2 :=
      match lookupField fields1 "command" with
      | some (Json.arr xs) => setField fields1 "command" (Json.str (joinCommand xs))
      | _ => fields1
    Json.obj fields2
  | v => v

/-- Field access on the result of normalization (a `tool_input` value):
`none` when the value is not an object or lacks the key. -/
def Json.getField (v : Json) (key : String) : Option Json :=
  match v with
  | Json.obj fields => lookupField fields key
  | _ => none

/- ================= Tool dispatch (tools/registry.rs) ================= -/

/-- `ToolKind` in `tools/registry.rs`. -/
inductive ToolKind where
  | Function
  | Mcp
deriving DecidableEq, Repr

/-- `ToolPayload` from `tools/context.rs`, with the fields the mediation
pipeline reads: `Function` and `Mcp` carry raw JSON argument strings,
`LocalShell` carries the structured command vector, `Custom` an opaque
string. -/
inductive ToolPayload where
  | Function (arguments : String)
  | Custom (input : String)
  | LocalShell (command : List String)
  | Mcp (server tool raw_arguments : String)
deriving DecidableEq, Repr

/-- `ToolHandler::matches_kind` in `tools/registry.rs`: a `Function`
handler accepts only `Function` payloads and an `Mcp` handler only
`Mcp` payloads. -/
def matches_kind (kind : ToolKind) (payload : ToolPayload) : Bool :=
  match kind, payload with
  | ToolKind.Function, ToolPayload.Function _ => true
  | ToolKind.Mcp, ToolPayload.Mcp _ _ _ => true
  | _, _ => false

/-- The default body of `ToolHandler::is_mutating` in
`tools/registry.rs`, used by every handler that does not override it.
The argument stands for the `&ToolInvocation` parameter (ignored by the
default body). -/
def is_mutating_default (_invocation : ToolPayload) : Bool :=
  false

/-- `ToolOutput` metadata the dispatch loop reads: `log_preview()` and
`success_for_logging()`. -/
structure ToolOutput where
  log_preview : String
  success_for_logging : Bool
deriving DecidableEq, Repr

/-- `FunctionCallError`: `RespondToModel` is recoverable (reported to
the model), `Fatal` aborts.  `message` is its `Display` text. -/
inductive FunctionCallError where
  | RespondToModel (msg : String)
  | Fatal (msg : String)
deriving DecidableEq, Repr

/-- `Display` of `FunctionCallError` (`err.to_string()` in `dispatch`). -/
def FunctionCallError.message : FunctionCallError → String
  | FunctionCallError.RespondToModel m => m
  | FunctionCallError.Fatal m => m

/-- One registered tool handler, for a single dispatch: its kind, the
value its `is_mutating` returns for this invocation, and the result its
`handle` returns for this invocation. -/
structure Handler where
  kind : ToolKind
  is_mutating : Bool
  handle : Except FunctionCallError ToolOutput

/-- `unsupported_tool_call_message` in `tools/registry.rs`. -/
def unsupported_tool_call_message (payload : ToolPayload) (tool_name : String) : String :=
  match payload with
  | ToolPayload.Custom _ => "unsupported custom tool call: " ++ tool_name
  | _ => "unsupported call: " ++ tool_name

/-- `extract_tool_input_for_hooks` in `tools/registry.rs`, with
`serde_json::from_str` supplied as the oracle `parse`: `Function`
arguments are parsed and normalized, falling back to JSON `null` on a
parse failure; `LocalShell` joins its command vector; `Mcp` parses raw
arguments with the same `null` fallback; `Custom` wraps its input as a
string. -/
def extract_tool_input_for_hooks (parse : String → Option Json) :
    ToolPayload → Json
  | ToolPayload.Function arguments =>
    match parse arguments with
    | some v => normalize_command_to_string v
    | none => Json.null
  | ToolPayload.LocalShell command =>
    Json.obj [("command", Json.str (String.intercalate " " command))]
  | ToolPayload.Mcp _ _ raw_arguments => (parse raw_arguments).getD Json.null
  | ToolPayload.Custom input => Json.str input

/-- The `AfterToolUse` hook event assembled in
`dispatch_after_tool_use_hook` (`tools/registry.rs`), restricted to the
fields the claims inspect. -/
structure AfterToolUseEvent where
  tool_name : String
  call_id : String
  tool_input : ToolPayload
  executed : Bool
  success : Bool
  mutating : Bool
  output_preview : String
deriving DecidableEq, Repr

/-- Caller-facing response built by `ToolOutput::into_response`
(contents opaque to the mediation pipeline). -/
structure ResponseInputItem where
  call_id : String
  output : ToolOutput
deriving DecidableEq, Repr

/-- Observable outcome of one `ToolRegistry::dispatch` call: the
returned value, the `AfterToolUse` events dispatched before returning,
and the `tool_input` passed to the PreToolUse hook engine (when it ran). -/
structure DispatchTrace where
  result : Except FunctionCallError ResponseInputItem
  afterEvents : List AfterToolUseEvent
  preHookInput : Option Json

/-- `ToolRegistry::dispatch` in `tools/registry.rs`: handler lookup,
kind check, mutation classification, PreToolUse gate (only when rules
are configured), admission wait (untimed here), handler execution with
the single-slot output cell, `AfterToolUse` event dispatch, response
assembly.  `reg` is the registry lookup, `exec`/`parseHookOutput` the
hook subprocess and serde oracles, `parse` the argument-parsing oracle.
`none` models a panic escaping from the hook engine. -/
def dispatch (reg : String → Option Handler)
    (hooks : List PreToolUseHookConfig) (exec : Nat → ProcessResult)
    (parseHookOutput : String → Except String HookOutput)
    (parse : String → Option Json)
    (tool_name call_id : String) (payload : ToolPayload) :
    Option DispatchTrace :=
  match reg tool_name with
  | none =>
    some { result := Except.error (FunctionCallError.RespondToModel
             (unsupported_tool_call_message payload tool_name))
           afterEvents := []
           preHookInput := none }
  | some handler =>
    if matches_kind handler.kind payload = false then
      some { result := Except.error (FunctionCallError.Fatal
               ("tool " ++ tool_name ++ " invoked with incompatible payload"))
             afterEvents := []
             preHookInput := none }
    else
      let is_mutating := handler.is_mutating
      let gate :=
        if hooks.isEmpty then some (Except.ok ())
        else run_pre_tool_use_hooks hooks exec parseHookOutput tool_name.data
      let preInput :=
        if hooks.isEmpty then none
        else some (extract_tool_input_for_hooks parse payload)
      match gate with
      | none => none
      | some (Except.error reason) =>
        some { result := Except.error (FunctionCallError.RespondToModel reason)
               afterEvents := []
               preHookInput := preInput }
      | some (Except.ok _) =>
        let result := handler.handle
        let output_cell : Option ToolOutput :=
          match result with
          | Except.ok output => some output
          | Except.error _ => none
        let preview_success :=
          match result with
          | Except.ok output => (output.log_preview, output.success_for_logging)
          | Except.error err => (err.message, false)
        let event : AfterToolUseEvent :=
          { tool_name := tool_name
            call_id := call_id
            tool_input := payload
            executed := true
            success := preview_success.2
            mutating := is_mutating
            output_preview := preview_success.1 }
        let final : Except FunctionCallError ResponseInputItem :=
          match result with
          | Except.ok _ =>
            match output_cell with
            | some output => Except.ok { call_id := call_id, output := output }
            | none => Except.error (FunctionCallError.Fatal "tool produced no output")
          | Except.error err => Except.error err
        some { result := final
               afterEvents := [event]
               preHookInput := preInput }

/- ================= Helper lemmas ================= -/

theorem lookupField_append (fs gs : List (String × Json)) (k : String) :
    lookupField (fs ++ gs) k =
      match lookupField fs k with
      | some v => some v
      | none => lookupField gs k := by
  induction fs with
  | nil => simp [lookupField]
  | cons p rest ih =>
    obtain ⟨a, v⟩ := p
    by_cases h : a = k
    · simp [lookupField, h]
    · simp [lookupField, h, ih]

theorem lookupField_setField_self (fs : List (String × Json)) (k : String)
    (nv : Json) (h : (lookupField fs k).isSome = true) :
    lookupField (setField fs k nv) k = some nv := by
  induction fs with
  | nil => simp [lookupField] at h
  | cons p rest ih =>
    obtain ⟨a, v⟩ := p
    by_cases ha : a = k
    · simp [lookupField, setField, ha]
    · simp only [lookupField, setField, if_neg ha] at h ⊢
      exact ih h

theorem filterMap_asStr_map_str (xs : List String) :
    (xs.map Json.str).filterMap Json.asStr = xs := by
  induction xs with
  | nil => rfl
  | cons x rest ih => simp [Json.asStr, ih]

/- ================= Claims ================= -/

/-- C1 counterexample: with both representations present, precedence is
per field, not per group.  Left conjunct: a nested object supplying only
`permission_decision` falls back to the legacy `reason` ("legacy").
Right conjunct: a nested object supplying only
`permission_decision_reason` falls back to the legacy `decision`
(`Deny`), which the claim says must be ignored. -/
theorem hook_output_precedence_counterexample :
    HookOutput.effective_reason
        ⟨some ⟨some HookDecision.Deny, none⟩, some HookDecision.Allow, some "legacy"⟩
      = some "legacy"
    ∧ HookOutput.effective_decision
        ⟨some ⟨none, some "nested reason"⟩, some HookDecision.Deny, some "legacy"⟩
      = HookDecision.Deny := ⟨rfl, rfl⟩

/-- C1 (amended): precedence between the nested and legacy result fields
is resolved independently per field: the effective decision is the
nested `permission_decision` when present (else the legacy `decision`,
default `Allow`), and the effective reason is the nested
`permission_decision_reason` when present (else the legacy `reason`);
a nested object supplying only one field falls back to the legacy value
for the other. -/
theorem hook_output_precedence_per_field (o : HookOutput) :
    (∀ hso d, o.hook_specific_output = some hso →
      hso.permission_decision = some d → o.effective_decision = d)
    ∧ (o.hook_specific_output.bind HookSpecificOutput.permission_decision = none →
      o.effective_decision = o.decision.getD HookDecision.Allow)
    ∧ (∀ hso r, o.hook_specific_output = some hso →
      hso.permission_decision_reason = some r → o.effective_reason = some r)
    ∧ (o.hook_specific_output.bind HookSpecificOutput.permission_decision_reason = none →
      o.effective_reason = o.reason) := by
  obtain ⟨hso?, d?, r?⟩ := o
  refine ⟨?_, ?_, ?_, ?_⟩
  · rintro hso d rfl hd
    simp [HookOutput.effective_decision, hd]
  · intro h
    cases hso? with
    | none => simp [HookOutput.effective_decision]
    | some hso =>
      simp only [Option.some_bind] at h
      simp [HookOutput.effective_decision, h]
  · rintro hso r rfl hr
    simp [HookOutput.effective_reason, hr]
  · intro h
    cases hso? with
    | none => simp [HookOutput.effective_reason]
    | some hso =>
      simp only [Option.some_bind] at h
      simp [HookOutput.effective_reason, h]

/-- C1 witness: the amended theorem applied at a concrete output whose
nested struct carries both fields. -/
theorem hook_output_precedence_per_field_witness :
    HookOutput.effective_decision
        ⟨some ⟨some HookDecision.Deny, some "nested"⟩, some HookDecision.Allow, some "legacy"⟩
      = HookDecision.Deny :=
  (hook_output_precedence_per_field _).1 _ _ rfl rfl

/-- C3: the default mutation classification in `ToolHandler` is not
conservative — it resolves "handler did not override" to `false`, while
its own documentation requires `true` whenever a doubt exists. -/
theorem is_mutating_default_is_false :
    ∀ invocation : ToolPayload, is_mutating_default invocation = false :=
  fun _ => rfl

/-- C4: a matching rule whose hook exits with code 2 always yields a
block whose reason is the trimmed stderr text when non-empty, and the
fixed generic message otherwise — independent of the rule's `on_failure`
policy (which is universally quantified here, so the deny blocks even
under `on_failure = Allow`) and of any later rules. -/
theorem exit_code_two_is_protocol_deny (rule : PreToolUseHookConfig)
    (rest : List PreToolUseHookConfig) (exec : Nat → ProcessResult)
    (pho : String → Except String HookOutput) (tn : List Char)
    (stdout stderr : String)
    (hmatch : matches_tool rule.matcher tn = true)
    (hcmd : rule.command ≠ [])
    (hexec : exec 0 = ProcessResult.exited (some 2) stdout stderr) :
    run_pre_tool_use_hooks (rule :: rest) exec pho tn =
      some (Except.error (if rustTrim stderr = "" then
          "Hook blocked command (exit code 2)"
        else rustTrim stderr)) := by
  have hne : rule.command.isEmpty = false := by
    cases h : rule.command with
    | nil => exact absurd h hcmd
    | cons a l => rfl
  simp only [run_pre_tool_use_hooks, run_hooks_go, hmatch, hne, hexec,
    execute_single_hook]
  simp [HookOutput.effective_decision, HookOutput.effective_reason]

/-- C4 witness: a concrete exit-2 hook with `on_failure = Allow` and
non-empty stderr still blocks with exactly the trimmed stderr text. -/
theorem exit_code_two_is_protocol_deny_witness :
    run_pre_tool_use_hooks
        [⟨['*'], ["hook.sh"], 5, HookFailurePolicy.Allow⟩]
        (fun _ => ProcessResult.exited (some 2) "" " denied by hook \n")
        (fun _ => Except.error "unused") ['s', 'h'] =
      some (Except.error "denied by hook") := by
  have h := exit_code_two_is_protocol_deny
    ⟨['*'], ["hook.sh"], 5, HookFailurePolicy.Allow⟩ []
    (fun _ => ProcessResult.exited (some 2) "" " denied by hook \n")
    (fun _ => Except.error "unused") ['s', 'h'] "" " denied by hook \n"
    (by decide) (by simp) rfl
  rw [h]; rfl

/-- C6: a matching rule with an empty command applies its `on_failure`
policy immediately: `Deny` returns the misconfiguration block without
evaluating later rules, and `Allow` never blocks from this rule and
proceeds to the remaining rules. -/
theorem empty_command_applies_on_failure (rule : PreToolUseHookConfig)
    (rest : List PreToolUseHookConfig) (exec : Nat → ProcessResult)
    (pho : String → Except String HookOutput) (tn : List Char)
    (hmatch : matches_tool rule.matcher tn = true)
    (hcmd : rule.command = []) :
    (rule.on_failure = HookFailurePolicy.Deny →
      run_pre_tool_use_hooks (rule :: rest) exec pho tn =
        some (Except.error "Hook misconfigured: empty command"))
    ∧ (rule.on_failure = HookFailurePolicy.Allow →
      run_pre_tool_use_hooks (rule :: rest) exec pho tn =
        run_hooks_go exec pho tn 1 rest) := by
  constructor
  · intro hf
    simp [run_pre_tool_use_hooks, run_hooks_go, hmatch, hcmd, hf]
  · intro hf
    simp [run_pre_tool_use_hooks, run_hooks_go, hmatch, hcmd, hf]

/-- C6 witness: a concrete empty-command rule with `on_failure = Deny`
blocks with the misconfiguration reason. -/
theorem empty_command_applies_on_failure_witness :
    run_pre_tool_use_hooks
        [⟨['*'], [], 5, HookFailurePolicy.Deny⟩]
        (fun _ => ProcessResult.timeout) (fun _ => Except.error "unused")
        ['s'] =
      some (Except.error "Hook misconfigured: empty command") :=
  (empty_command_applies_on_failure ⟨['*'], [], 5, HookFailurePolicy.Deny⟩ []
    (fun _ => ProcessResult.timeout) (fun _ => Except.error "unused") ['s']
    (by decide) rfl).1 rfl

/-- C2 counterexample: a `dispatch` call blocked by the pre-execution
hook gate emits zero `AfterToolUse` events (the claim requires exactly
one): concretely, a registered `Function` tool with a single exit-2 hook
rule returns the block without any after-execution event. -/
theorem after_event_counterexample :
    (dispatch (fun _ => some ⟨ToolKind.Function, false, Except.ok ⟨"ok", true⟩⟩)
        [⟨['*'], ["deny.sh"], 5, HookFailurePolicy.Deny⟩]
        (fun _ => ProcessResult.exited (some 2) "" "no")
        (fun _ => Except.error "unused") (fun _ => none)
        "shell" "call-1" (ToolPayload.Function "bad")).map
      (fun t => t.afterEvents.length) = some 0 := rfl

/-- C2 (amended): an `AfterToolUse` event is emitted exactly once per
`dispatch` call that reaches handler execution — lookup succeeded, the
payload kind matched, and the pre-execution hook gate passed — whether
the handler succeeds or errors, and the emitted event records
`executed = true`; `dispatch` calls that return early (unknown tool,
kind mismatch, or pre-hook block) emit no after-execution event. -/
theorem after_event_iff_execution (reg : String → Option Handler)
    (hooks : List PreToolUseHookConfig) (exec : Nat → ProcessResult)
    (pho : String → Except String HookOutput) (parse : String → Option Json)
    (tn cid : String) (payload : ToolPayload) (t : DispatchTrace)
    (ht : dispatch reg hooks exec pho parse tn cid payload = some t) :
    (reg tn = none → t.afterEvents = [])
    ∧ (∀ h, reg tn = some h → matches_kind h.kind payload = false →
        t.afterEvents = [])
    ∧ (∀ h r, reg tn = some h → matches_kind h.kind payload = true →
        hooks ≠ [] →
        run_pre_tool_use_hooks hooks exec pho tn.data =
          some (Except.error r) →
        t.afterEvents = [])
    ∧ (∀ h, reg tn = some h → matches_kind h.kind payload = true →
        (hooks = [] ∨
          run_pre_tool_use_hooks hooks exec pho tn.data =
            some (Except.ok ())) →
        t.afterEvents.length = 1 ∧ ∀ e ∈ t.afterEvents, e.executed = true) := by
  cases hr : reg tn with
  | none =>
    simp only [dispatch, hr, Option.some.injEq] at ht
    subst ht
    refine ⟨fun _ => rfl, ?_, ?_, ?_⟩
    · intro h hh _
      exact Option.noConfusion hh
    · intro h r hh _ _ _
      exact Option.noConfusion hh
    · intro h hh _ _
      exact Option.noConfusion hh
  | some handler =>
    cases hk : matches_kind handler.kind payload with
    | false =>
      simp [dispatch, hr, hk] at ht
      subst ht
      refine ⟨?_, fun _ _ _ => rfl, ?_, ?_⟩
      · intro hh; exact Option.noConfusion hh
      · intro h r _ _ _ _
        rfl
      · intro h hh hk2 _
        injection hh with hEq
        subst hEq
        rw [hk] at hk2
        exact Bool.noConfusion hk2
    | true =>
      cases he : hooks.isEmpty with
      | true =>
        have hnil : hooks = [] := List.isEmpty_iff.mp he
        simp [dispatch, hr, hk, he] at ht
        subst ht
        refine ⟨?_, ?_, ?_, ?_⟩
        · intro hh; exact Option.noConfusion hh
        · intro h hh hk2
          injection hh with hEq
          subst hEq
          rw [hk] at hk2
          exact Bool.noConfusion hk2
        · intro h r _ _ hne _
          exact absurd hnil hne
        · intro h _ _ _
          exact ⟨by simp, by simp⟩
      | false =>
        cases grun : run_pre_tool_use_hooks hooks exec pho tn.data with
        | none =>
          simp [dispatch, hr, hk, he, grun] at ht
        | some gres =>
          cases gres with
          | error r0 =>
            simp [dispatch, hr, hk, he, grun] at ht
            subst ht
            refine ⟨?_, ?_, ?_, ?_⟩
            · intro hh; exact Option.noConfusion hh
            · intro h _ _
              rfl
            · intro h r _ _ _ _
              rfl
            · intro h _ _ hpass
              rcases hpass with hnil | hok
              · rw [hnil] at he
                simp at he
              · simp at hok
          | ok u =>
            cases u
            simp [dispatch, hr, hk, he, grun] at ht
            subst ht
            refine ⟨?_, ?_, ?_, ?_⟩
            · intro hh; exact Option.noConfusion hh
            · intro h hh hk2
              injection hh with hEq
              subst hEq
              rw [hk] at hk2
              exact Bool.noConfusion hk2
            · intro h r _ _ _ hrun
              simp at hrun
            · intro h _ _ _
              exact ⟨by simp, by simp⟩

/-- C2 witness: the amended theorem applied to a concrete dispatch whose
handler errors — the event is still emitted exactly once, with
`executed = true`. -/
theorem after_event_iff_execution_witness :
    (DispatchTrace.mk
        (Except.error (FunctionCallError.RespondToModel "boom"))
        [⟨"shell", "call-2", ToolPayload.Function "x", true, false, true, "boom"⟩]
        none).afterEvents.length = 1
    ∧ ∀ e ∈ (DispatchTrace.mk
        (Except.error (FunctionCallError.RespondToModel "boom"))
        [⟨"shell", "call-2", ToolPayload.Function "x", true, false, true, "boom"⟩]
        none).afterEvents, e.executed = true :=
  (after_event_iff_execution
    (fun _ => some ⟨ToolKind.Function, true,
      Except.error (FunctionCallError.RespondToModel "boom")⟩)
    [] (fun _ => ProcessResult.timeout) (fun _ => Except.error "unused")
    (fun _ => none) "shell" "call-2" (ToolPayload.Function "x") _ rfl).2.2.2
    ⟨ToolKind.Function, true,
      Except.error (FunctionCallError.RespondToModel "boom")⟩
    rfl rfl (Or.inl rfl)

/-- C5: behaviour of the pattern matcher (total by construction): the
pattern `"*"` always matches; a pattern containing a glob metacharacter
(`*` or `?`) matches exactly the names related to it by the
case-insensitive glob relation `GlobM` (`*` matches any run of
characters including the empty one, `?` exactly one character); any
other pattern matches exactly the names equal to it ignoring ASCII
case. -/
theorem matches_tool_spec (pattern tool_name : List Char) :
    (pattern = ['*'] → matches_tool pattern tool_name = true)
    ∧ ((pattern.contains '*' = true ∨ pattern.contains '?' = true) →
        (matches_tool pattern tool_name = true ↔
          GlobM (pattern.map Char.toLower) (tool_name.map Char.toLower)))
    ∧ (pattern.contains '*' = false → pattern.contains '?' = false →
        (matches_tool pattern tool_name = true ↔
          pattern.map Char.toLower = tool_name.map Char.toLower)) := by
  refine ⟨?_, ?_, ?_⟩
  · intro h
    simp [matches_tool, h]
  · intro h
    by_cases hstar : pattern = ['*']
    · subst hstar
      simp only [matches_tool, if_pos rfl]
      constructor
      · intro _
        have hg : GlobM ['*'] (tool_name.map Char.toLower ++ []) :=
          GlobM.star (tool_name.map Char.toLower) GlobM.nil
        simpa using hg
      · intro _; rfl
    · have hcond : (pattern.contains '*' || pattern.contains '?') = true := by
        rcases h with h | h
        · rw [h, Bool.true_or]
        · rw [h, Bool.or_true]
      unfold matches_tool
      rw [if_neg hstar, hcond, if_pos rfl]
      exact globMatch_iff _ _
  · intro h1 h2
    have hstar : pattern ≠ ['*'] := by
      intro hp
      rw [hp] at h1
      simp at h1
    have hcond : (pattern.contains '*' || pattern.contains '?') = false := by
      rw [h1, h2, Bool.or_false]
    unfold matches_tool
    rw [if_neg hstar, hcond]
    simp

/-- C5 witness: the glob clause applied at the concrete pair
`("shell*", "SHELL_command")`. -/
theorem matches_tool_spec_witness :
    ("shell*".data.contains '*' = true ∨ "shell*".data.contains '?' = true)
    ∧ GlobM ("shell*".data.map Char.toLower)
        ("SHELL_command".data.map Char.toLower) :=
  ⟨Or.inl (by decide),
   ((matches_tool_spec "shell*".data "SHELL_command".data).2.1
     (Or.inl (by decide))).mp (by decide)⟩

theorem normalize_command_arr (fields : List (String × Json)) (xs : List Json)
    (h : lookupField fields "command" = some (Json.arr xs)) :
    (normalize_command_to_string (Json.obj fields)).getField "command" =
      some (Json.str (joinCommand xs)) := by
  have hhas : hasField fields "command" = true := by
    simp [hasField, h]
  simp only [normalize_command_to_string, Json.getField]
  cases hca : (lookupField fields "cmd").bind Json.asStr with
  | none =>
    simp only [hca, h]
    exact lookupField_setField_self _ _ _ (by simp [h])
  | some s =>
    simp only [hca, hhas, Bool.true_eq_false, if_false, h]
    exact lookupField_setField_self _ _ _ (by simp [h])

/-- C7: hook-facing normalization of object-shaped tool arguments: an
array-valued `command` field of strings is joined into one
space-separated string; a string-valued `cmd` field is copied into
`command` when no `command` key is present; and when both `cmd` and
`command` are present, a non-array `command` value is left untouched
(an array-valued `command` is still joined, per the first clause). -/
theorem normalize_command_fields (fields : List (String × Json)) :
    (∀ xs : List String,
      lookupField fields "command" = some (Json.arr (xs.map Json.str)) →
      (normalize_command_to_string (Json.obj fields)).getField "command" =
        some (Json.str (String.intercalate " " xs)))
    ∧ (∀ x, hasField fields "command" = false →
      lookupField fields "cmd" = some (Json.str x) →
      (normalize_command_to_string (Json.obj fields)).getField "command" =
        some (Json.str x))
    ∧ (∀ v, hasField fields "cmd" = true →
      lookupField fields "command" = some v → (∀ xs, v ≠ Json.arr xs) →
      (normalize_command_to_string (Json.obj fields)).getField "command" =
        some v) := by
  refine ⟨?_, ?_, ?_⟩
  · intro xs h
    have hj := normalize_command_arr fields (xs.map Json.str) h
    rw [hj, joinCommand, filterMap_asStr_map_str]
  · intro x hno hcmd
    have hnone : lookupField fields "command" = none := by
      cases hl : lookupField fields "command" with
      | none => rfl
      | some v =>
        unfold hasField at hno
        rw [hl] at hno
        simp at hno
    have hlookup1 :
        lookupField (fields ++ [("command", Json.str x)]) "command" =
          some (Json.str x) := by
      rw [lookupField_append, hnone]
      rfl
    simp [normalize_command_to_string, Json.getField, hcmd, Json.asStr,
      hasField, hnone, hlookup1]
  · intro v hcmdkey hcommand hnotarr
    have hhas : hasField fields "command" = true := by
      simp [hasField, hcommand]
    simp only [normalize_command_to_string, Json.getField]
    cases hca : (lookupField fields "cmd").bind Json.asStr <;>
      cases v <;>
        first
          | exact absurd rfl (hnotarr _)
          | simp [hca, hcommand, hhas]

/-- C7 witness: the cmd-aliasing clause applied at the concrete object
with a single `cmd` field. -/
theorem normalize_command_fields_witness :
    hasField [("cmd", Json.str "x")] "command" = false
    ∧ (normalize_command_to_string
        (Json.obj [("cmd", Json.str "x")])).getField "command" =
          some (Json.str "x") :=
  ⟨rfl, (normalize_command_fields [("cmd", Json.str "x")]).2.1 "x" rfl rfl⟩

set_option maxRecDepth 10000 in
/-- C8: the parse-error preview slice panics on multi-byte UTF-8 text:
the preview is `stdout[..min(len, 200)]` in bytes, and when byte 200
falls inside a multi-byte character the slice is not on a character
boundary.  Concretely, a hook exiting 0 whose non-JSON stdout is 199
ASCII characters followed by a 2-byte character makes
`execute_single_hook` panic (result `none`) instead of returning the
hook-execution error with a 200-character preview that the claim
requires. -/
theorem parse_error_preview_panics :
    execute_single_hook (fun _ => Except.error "expected value") 5
      (ProcessResult.exited (some 0)
        (String.mk (List.replicate 199 'a' ++ ['é', '!'])) "") = none := by
  rfl

/-- C9: when an array-valued `command` field is normalized, only the
string elements contribute to the joined result; non-string elements
are silently dropped rather than producing an error. -/
theorem normalize_command_array_drops_non_strings
    (fields : List (String × Json)) (xs : List Json)
    (h : lookupField fields "command" = some (Json.arr xs)) :
    (normalize_command_to_string (Json.obj fields)).getField "command" =
      some (Json.str (String.intercalate " " (xs.filterMap Json.asStr))) :=
  normalize_command_arr fields xs h

/-- C9 witness: `command: ["a", 1, "b"]` normalizes to `command: "a b"`,
dropping the number. -/
theorem normalize_command_array_drops_non_strings_witness :
    (normalize_command_to_string (Json.obj
        [("command", Json.arr [Json.str "a", Json.num 1, Json.str "b"])])).getField
      "command" = some (Json.str "a b") := by
  have h := normalize_command_array_drops_non_strings
    [("command", Json.arr [Json.str "a", Json.num 1, Json.str "b"])]
    [Json.str "a", Json.num 1, Json.str "b"] rfl
  rw [h]; rfl

/-- C10: a `Function` payload whose raw argument string fails to parse
as JSON never blocks the dispatch by itself: the hook-facing tool input
passed to the PreToolUse engine is JSON `null`, the matching hooks still
run (the dispatch reaches execution whenever the hook gate allows), and
any block carries the hooks' own reason. -/
theorem malformed_args_hook_input_null (reg : String → Option Handler)
    (hooks : List PreToolUseHookConfig) (exec : Nat → ProcessResult)
    (pho : String → Except String HookOutput) (parse : String → Option Json)
    (tn cid args : String) (h : Handler) (t : DispatchTrace)
    (hreg : reg tn = some h)
    (hkind : matches_kind h.kind (ToolPayload.Function args) = true)
    (hparse : parse args = none) (hhooks : hooks ≠ [])
    (ht : dispatch reg hooks exec pho parse tn cid
      (ToolPayload.Function args) = some t) :
    t.preHookInput = some Json.null
    ∧ (run_pre_tool_use_hooks hooks exec pho tn.data =
        some (Except.ok ()) → t.afterEvents.length = 1)
    ∧ (∀ r, run_pre_tool_use_hooks hooks exec pho tn.data =
        some (Except.error r) →
        t.result = Except.error (FunctionCallError.RespondToModel r)) := by
  have he : hooks.isEmpty = false := by
    cases hooks with
    | nil => exact absurd rfl hhooks
    | cons a l => rfl
  have hex : extract_tool_input_for_hooks parse (ToolPayload.Function args) =
      Json.null := by
    simp [extract_tool_input_for_hooks, hparse]
  cases grun : run_pre_tool_use_hooks hooks exec pho tn.data with
  | none =>
    simp [dispatch, hreg, hkind, he, grun] at ht
  | some gres =>
    cases gres with
    | error r0 =>
      simp [dispatch, hreg, hkind, he, grun, hex] at ht
      subst ht
      refine ⟨rfl, ?_, ?_⟩
      · intro hok
        simp at hok
      · intro r hrun
        simp at hrun
        subst hrun
        rfl
    | ok u =>
      cases u
      simp [dispatch, hreg, hkind, he, grun, hex] at ht
      subst ht
      refine ⟨rfl, ?_, ?_⟩
      · intro _
        simp
      · intro r hrun
        simp at hrun

/-- C10 witness: a concrete dispatch with unparseable arguments and one
allowing hook rule — the hook input is `null` and execution proceeds. -/
theorem malformed_args_hook_input_null_witness :
    (DispatchTrace.mk (Except.ok ⟨"call-9", ⟨"done", true⟩⟩)
        [⟨"shell", "call-9", ToolPayload.Function "oops", true, true, false, "done"⟩]
        (some Json.null)).preHookInput = some Json.null
    ∧ (run_pre_tool_use_hooks [⟨['*'], ["h"], 5, HookFailurePolicy.Deny⟩]
        (fun _ => ProcessResult.exited (some 0) "" "")
        (fun _ => Except.error "unused") "shell".data = some (Except.ok ()) →
      (DispatchTrace.mk (Except.ok ⟨"call-9", ⟨"done", true⟩⟩)
        [⟨"shell", "call-9", ToolPayload.Function "oops", true, true, false, "done"⟩]
        (some Json.null)).afterEvents.length = 1)
    ∧ (∀ r, run_pre_tool_use_hooks [⟨['*'], ["h"], 5, HookFailurePolicy.Deny⟩]
        (fun _ => ProcessResult.exited (some 0) "" "")
        (fun _ => Except.error "unused") "shell".data =
          some (Except.error r) →
      (DispatchTrace.mk (Except.ok ⟨"call-9", ⟨"done", true⟩⟩)
        [⟨"shell", "call-9", ToolPayload.Function "oops", true, true, false, "done"⟩]
        (some Json.null)).result =
          Except.error (FunctionCallError.RespondToModel r)) :=
  malformed_args_hook_input_null
    (fun _ => some ⟨ToolKind.Function, false, Except.ok ⟨"done", true⟩⟩)
    [⟨['*'], ["h"], 5, HookFailurePolicy.Deny⟩]
    (fun _ => ProcessResult.exited (some 0) "" "")
    (fun _ => Except.error "unused") (fun _ => none)
    "shell" "call-9" "oops"
    ⟨ToolKind.Function, false, Except.ok ⟨"done", true⟩⟩ _
    rfl rfl rfl (List.cons_ne_nil _ _) rfl
